import Mathlib

/-!
Verification development for the local indexing & search engine of the
tiktok-watch-indexer repository.  The definitions below are a shallow
embedding of the JavaScript source (`background.js` and the color-detection
utility file): the IndexedDB object stores become association lists kept in
key order of insertion, asynchronous store operations become pure state
passing, and the platform string functions (`toLowerCase`, `normalize('NFD')`)
are modelled on the character range the development exercises.
-/

namespace TTWI

/-- Model of JavaScript `String.prototype.toLowerCase` restricted to the
characters this development exercises: ASCII letters are lowered, every other
character (all of which are already lower case here) is returned unchanged. -/
def jsToLowerCase (c : Char) : Char := c.toLower

/-- Model of Unicode canonical decomposition (`String.prototype.normalize('NFD')`)
restricted to the characters this development exercises.  ASCII characters are
their own decomposition; the two accented vowels used in the queries decompose
into the base letter followed by a combining accent.  (The letter đ, U+0111,
has no canonical decomposition and maps to itself.) -/
def nfdChar (c : Char) : List Char :=
  if c = 'á' then ['a', Char.ofNat 0x0301]
  else if c = 'à' then ['a', Char.ofNat 0x0300]
  else [c]

/-- The combining diacritical marks range removed by
`.replace(/[̀-ͯ]/g, '')` in `normalizeText`. -/
def isCombiningMark (c : Char) : Bool :=
  decide (0x300 ≤ c.toNat) && decide (c.toNat ≤ 0x36F)

/-- Whitespace as matched by the `/\s+/` split, restricted to the whitespace
characters this development exercises. -/
def isJsWhitespace (c : Char) : Bool :=
  c = ' ' || c = '\t' || c = '\n' || c = '\r'

/-- Splitting a character list on runs of whitespace, dropping empty pieces;
this is the combined effect of `.split(/\s+/)` followed by
`.filter(token => token.length > 0)`.  The second argument accumulates the
current (reversed) token. -/
def splitOnWs : List Char → List Char → List (List Char)
  | [], acc => if acc.isEmpty then [] else [acc.reverse]
  | c :: rest, acc =>
    if isJsWhitespace c then
      if acc.isEmpty then splitOnWs rest [] else acc.reverse :: splitOnWs rest []
    else splitOnWs rest (c :: acc)

/-- `normalizeText` from `background.js`: lowercase, Unicode canonical
decomposition, strip combining diacritics, split on whitespace, drop empty
tokens. -/
def normalizeText (text : String) : List String :=
  let lowered := text.data.map jsToLowerCase
  let decomposed := (lowered.map nfdChar).flatten
  let stripped := decomposed.filter (fun c => !(isCombiningMark c))
  ((splitOnWs stripped []).map (fun cs => String.mk cs)).filter (fun t => 0 < t.length)

/-- Deduplication keeping the first occurrence of each element, in encounter
order: the behaviour of inserting into a JavaScript `Set` and reading it back
with `Array.from`. -/
def firstDedup (l : List String) : List String :=
  l.foldl (fun acc x => if x ∈ acc then acc else acc ++ [x]) []

/-- `extractTokens` from `background.js`: normalize, keep tokens of length at
least 2, deduplicate (first occurrence wins, order preserved). -/
def extractTokens (text : String) : List String :=
  firstDedup ((normalizeText text).filter (fun t => 2 ≤ t.length))

/-- A record of the `videos` object store (keyPath `id`). -/
structure Video where
  id : String
  url : String
  author : String
  caption : String
  hashtags : List String
  viewedAt : Nat
deriving DecidableEq

/-- A record of the `invertedIndex` object store (keyPath `token`). -/
structure Posting where
  token : String
  ids : List String
deriving DecidableEq

/-- The vision-analysis result extracted from a Cloud Vision response. -/
structure Analysis where
  labels : List String
  text : String
  objects : List String
deriving DecidableEq

/-- A record of the `frames` object store (keyPath `key`).  The
`imageEmbedding` and `colorPalette` fields are carried opaquely, as the code
merely copies them. -/
structure Frame where
  key : String
  videoId : String
  ts : Nat
  blobData : Option (List Nat)
  imageEmbedding : Option String
  colorPalette : Option String
  analysis : Option Analysis
deriving DecidableEq

/-- A record of the `thumbnails` object store (keyPath `key`). -/
structure Thumb where
  key : String
  videoId : String
  url : String
  ts : Nat
  dataUrl : String
  width : Nat
  height : Nat
deriving DecidableEq

/-- The four IndexedDB object stores.  Each store is modelled as a list of
records; key uniqueness is an IndexedDB invariant that appears as a `Nodup`
hypothesis where a claim needs it. -/
structure DBState where
  videos : List Video
  frames : List Frame
  thumbnails : List Thumb
  invertedIndex : List Posting
deriving DecidableEq

/-- `store.get(id)` on the videos store: the record with the given key. -/
def lookupVideo : List Video → String → Option Video
  | [], _ => none
  | v :: rest, id => if v.id = id then some v else lookupVideo rest id

/-- `store.put(record)` on the videos store: replace the record with the same
key, or append a fresh record. -/
def putVideo : List Video → Video → List Video
  | [], v => [v]
  | w :: rest, v => if w.id = v.id then v :: rest else w :: putVideo rest v

/-- One token step of `updateInvertedIndex`: read the posting entry for
`tok`; if present, append `vid` to its id list unless already there; if
absent, create the entry `{token, ids: [vid]}`. -/
def addPosting : List Posting → String → String → List Posting
  | [], tok, vid => [{ token := tok, ids := [vid] }]
  | e :: rest, tok, vid =>
    if e.token = tok then
      if vid ∈ e.ids then e :: rest
      else { token := e.token, ids := e.ids ++ [vid] } :: rest
    else e :: addPosting rest tok vid

/-- `updateInvertedIndex(videoId, tokens)` from `background.js`. -/
def updateInvertedIndex (idx : List Posting) (videoId : String)
    (tokens : List String) : List Posting :=
  tokens.foldl (fun acc tok => addPosting acc tok videoId) idx

inductive SaveResult where
  | saved
  | alreadyIndexed
deriving DecidableEq

/-- `saveVideo(videoData)` from `background.js`: if a record with the same id
exists, report "Video already indexed" without writing; otherwise store the
video and index the tokens of `caption + hashtags + author` joined by
spaces. -/
def saveVideo (s : DBState) (videoData : Video) : DBState × SaveResult :=
  match lookupVideo s.videos videoData.id with
  | some _ => (s, SaveResult.alreadyIndexed)
  | none =>
    let allText := String.intercalate " "
      ([videoData.caption] ++ videoData.hashtags ++ [videoData.author])
    let tokens := extractTokens allText
    ({ s with
        videos := putVideo s.videos videoData,
        invertedIndex := updateInvertedIndex s.invertedIndex videoData.id tokens },
      SaveResult.saved)

/-- `indexStore.get(token)` as used by `searchVideos`: the id list of the
posting entry for `token`, or `[]` when the entry is missing. -/
def getPosting : List Posting → String → List String
  | [], _ => []
  | e :: rest, tok => if e.token = tok then e.ids else getPosting rest tok

/-- `videoIdScores.set(id, (videoIdScores.get(id) || 0) + 1)` on a JavaScript
`Map` kept in insertion order: increment in place, or append `(id, 1)`. -/
def bumpId : List (String × Nat) → String → List (String × Nat)
  | [], id => [(id, 1)]
  | p :: rest, id =>
    if p.1 = id then (p.1, p.2 + 1) :: rest else p :: bumpId rest id

/-- Accumulate one posting entry's id list into the score map. -/
def accIds (m : List (String × Nat)) (ids : List String) : List (String × Nat) :=
  ids.foldl bumpId m

/-- The score map built by `searchVideos`: process the query tokens in order,
bumping every id of the token's posting entry. -/
def accScores (idx : List Posting) (toks : List String) : List (String × Nat) :=
  toks.foldl (fun m t => accIds m (getPosting idx t)) []

/-- Stable insertion: place `x` before the first element `y` with `r x y`.
With `r x y` read as "`x` may come no later than `y`", this models a stable
comparison sort. -/
def sInsert (r : α → α → Bool) (x : α) : List α → List α
  | [] => [x]
  | y :: ys => if r x y then x :: y :: ys else y :: sInsert r x ys

/-- Stable insertion sort; models the (stable) `Array.prototype.sort`. -/
def sSort (r : α → α → Bool) : List α → List α
  | [] => []
  | x :: xs => sInsert r x (sSort r xs)

/-- The comparator `(a, b) => b[1] - a[1]`: `a` may precede `b` iff
`b.2 ≤ a.2` (descending by score, ties stable). -/
def scoreGe (a b : String × Nat) : Bool := decide (b.2 ≤ a.2)

/-- The sorted score-map entries of `searchVideos` (before projecting ids). -/
def searchScores (s : DBState) (query : String) : List (String × Nat) :=
  sSort scoreGe (accScores s.invertedIndex (extractTokens query))

/-- `searchVideos(query)` from `background.js`: tokenize the query (empty
token list returns no results), score ids by number of matching tokens, sort
descending by score (stable), and hydrate every id to its video record,
skipping ids with no backing record. -/
def searchVideos (s : DBState) (query : String) : List Video :=
  if extractTokens query = [] then []
  else ((searchScores s query).map Prod.fst).filterMap
    (fun id => lookupVideo s.videos id)

/-- The number of distinct query tokens whose posting list contains `id`. -/
def matchCount (idx : List Posting) (toks : List String) (id : String) : Nat :=
  toks.countP (fun t => decide (id ∈ getPosting idx t))

/-- The wire shapes `saveFrame` distinguishes for `frameData.blob`: absent
(null or undefined, which are falsy), a `Blob`, an `ArrayBuffer`, a serialized
object exposing `byteLength`, a plain array of byte values, or anything
else. -/
inductive BlobInput where
  | absent
  | blobObj (bytes : List Nat)
  | arrayBuffer (bytes : List Nat)
  | byteLengthObj (bytes : List Nat)
  | numArray (bytes : List Nat)
  | unrecognized
deriving DecidableEq

/-- The blob-normalization prologue of `saveFrame`: `none` is the
"Invalid blob type" rejection; `some bd` carries the normalized binary
(`bd = none` when the field was absent, in which case `blobData` stays
`null`). -/
def classifyBlob : BlobInput → Option (Option (List Nat))
  | BlobInput.absent => some none
  | BlobInput.blobObj b => some (some b)
  | BlobInput.arrayBuffer b => some (some b)
  | BlobInput.byteLengthObj b => some (some b)
  | BlobInput.numArray b => some (some b)
  | BlobInput.unrecognized => none

/-- The argument record of `saveFrame`. -/
structure FrameData where
  key : String
  videoId : String
  ts : Nat
  blob : BlobInput
  imageEmbedding : Option String
  colorPalette : Option String
deriving DecidableEq

/-- The `chrome.storage.sync` settings `saveFrame` consults. -/
structure Settings where
  enableAI : Bool
  enableCloudVision : Bool
  cloudVisionApiKey : String
deriving DecidableEq

/-- The behaviour of the external Cloud Vision request: the fetch can throw
(network error), or return a response that is either non-OK or OK with a
parsed analysis. -/
inductive VisionOutcome where
  | netError
  | response (ok : Bool) (analysis : Analysis)
deriving DecidableEq

/-- `analyzeImageWithCloudVision` from `background.js`: a thrown fetch is
caught and yields `null`; a non-OK response throws inside the `try` and is
likewise caught to `null`; an OK response yields the extracted analysis. -/
def analyzeImageWithCloudVision : VisionOutcome → Option Analysis
  | VisionOutcome.netError => none
  | VisionOutcome.response ok a => if ok then some a else none

/-- The token set `saveFrame` derives from an analysis: text tokens (only when
the text is non-empty, since `if (analysis.text)` is false on `""`), then the
tokens of each label, then of each object, deduplicated in encounter order by
the `Set`. -/
def analysisTokens (a : Analysis) : List String :=
  firstDedup ((if a.text = "" then [] else extractTokens a.text)
    ++ (a.labels.map extractTokens).flatten
    ++ (a.objects.map extractTokens).flatten)

inductive FrameResult where
  | ok
  | error (msg : String)
deriving DecidableEq

/-- `store.get(key)` on the frames store. -/
def lookupFrame : List Frame → String → Option Frame
  | [], _ => none
  | f :: rest, key => if f.key = key then some f else lookupFrame rest key

/-- `store.put(record)` on the frames store. -/
def putFrame : List Frame → Frame → List Frame
  | [], f => [f]
  | g :: rest, f => if g.key = f.key then f :: rest else g :: putFrame rest f

/-- The condition under which `saveFrame` invokes the vision analysis:
`settings.enableAI && settings.enableCloudVision && settings.cloudVisionApiKey
&& blobData` (an empty API key and a `null` blob are falsy). -/
def visionEnabled (settings : Settings) (blobData : Option (List Nat)) : Bool :=
  settings.enableAI && settings.enableCloudVision
    && decide (settings.cloudVisionApiKey ≠ "") && blobData.isSome

/-- `saveFrame(frameData)` from `background.js`: normalize the blob field
(rejecting unrecognized shapes), optionally run the vision analysis — whose
failure is caught and treated as "no analysis" — merge analysis tokens into
the inverted index when available, and store the frame record. -/
def saveFrame (s : DBState) (settings : Settings) (outcome : VisionOutcome)
    (frameData : FrameData) : DBState × FrameResult :=
  match classifyBlob frameData.blob with
  | none => (s, FrameResult.error "Invalid blob type")
  | some blobData =>
    let base : Frame :=
      { key := frameData.key, videoId := frameData.videoId, ts := frameData.ts,
        blobData := blobData, imageEmbedding := frameData.imageEmbedding,
        colorPalette := frameData.colorPalette, analysis := none }
    let step :=
      if visionEnabled settings blobData then
        match analyzeImageWithCloudVision outcome with
        | some analysis =>
          ({ base with analysis := some analysis },
            updateInvertedIndex s.invertedIndex frameData.videoId
              (analysisTokens analysis))
        | none => (base, s.invertedIndex)
      else (base, s.invertedIndex)
    ({ s with frames := putFrame s.frames step.1, invertedIndex := step.2 },
      FrameResult.ok)

/-- `MAX_THUMBS_PER_VIDEO` from `saveThumbnail`. -/
def MAX_THUMBS_PER_VIDEO : Nat := 500

/-- The comparator `(a, b) => a.ts - b.ts` (ascending by timestamp, stable). -/
def tsLe (a b : Thumb) : Bool := decide (a.ts ≤ b.ts)

/-- `store.put(record)` on the thumbnails store. -/
def putThumb : List Thumb → Thumb → List Thumb
  | [], t => [t]
  | u :: rest, t => if u.key = t.key then t :: rest else u :: putThumb rest t

/-- `saveThumbnail(thumbData)` from `background.js`: fetch the existing
thumbnails of the video; if at or above the per-video cap, sort them ascending
by timestamp and delete the oldest surplus one key at a time; then store the
new thumbnail.  The function always reports `{success: true}`, so only the
state is returned. -/
def saveThumbnail (s : DBState) (thumbData : Thumb) : DBState :=
  let existing := s.thumbnails.filter (fun t => decide (t.videoId = thumbData.videoId))
  let afterEvict :=
    if MAX_THUMBS_PER_VIDEO ≤ existing.length then
      let sorted := sSort tsLe existing
      let toRemove := sorted.take (existing.length - MAX_THUMBS_PER_VIDEO + 1)
      toRemove.foldl
        (fun ths it => ths.eraseP (fun t => decide (t.key = it.key))) s.thumbnails
    else s.thumbnails
  { s with thumbnails := putThumb afterEvict thumbData }

/-- Sequential thumbnail ingestion. -/
def runThumbs (s : DBState) (tds : List Thumb) : DBState :=
  tds.foldl saveThumbnail s

/-- The 30-day retention horizon offset, in milliseconds. -/
def RETENTION_MS : Nat := 30 * 24 * 60 * 60 * 1000

/-- `cleanupOldFrames` from `background.js`: walk the `ts` secondary index of
frames and of thumbnails over `IDBKeyRange.upperBound(thirtyDaysAgo)` —
which is an inclusive bound — deleting every record visited.  The records
kept are exactly those with `thirtyDaysAgo < ts`. -/
def cleanupOldFrames (now : Nat) (s : DBState) : DBState :=
  let thirtyDaysAgo := now - RETENTION_MS
  { s with
    frames := s.frames.filter (fun f => decide (thirtyDaysAgo < f.ts)),
    thumbnails := s.thumbnails.filter (fun t => decide (thirtyDaysAgo < t.ts)) }

/-- `MAX_FRAMES` from `checkDBSize`. -/
def MAX_FRAMES : Nat := 10000

/-- `checkDBSize` from `background.js`: count the frames and re-run the
time-based cleanup when the hard cap is exceeded. -/
def checkDBSize (now : Nat) (s : DBState) : DBState :=
  if MAX_FRAMES < s.frames.length then cleanupOldFrames now s else s

/-- One full retention cycle as scheduled on startup and hourly:
`cleanupOldFrames` followed by `checkDBSize`. -/
def cleanupCycle (now : Nat) (s : DBState) : DBState :=
  checkDBSize now (cleanupOldFrames now s)

/-- A sampled pixel.  `extractPixels` also records an alpha component, which
`medianCut` never reads; it is omitted. -/
structure Pixel where
  r : Nat
  g : Nat
  b : Nat
deriving DecidableEq

inductive Channel where
  | r
  | g
  | b
deriving DecidableEq

def chan : Channel → Pixel → Nat
  | Channel.r, p => p.r
  | Channel.g, p => p.g
  | Channel.b, p => p.b

/-- The per-channel minima and maxima accumulated by the range scan of a box,
starting from `rMin = 255, rMax = 0` (and likewise for g and b). -/
structure Ranges where
  rMin : Nat
  rMax : Nat
  gMin : Nat
  gMax : Nat
  bMin : Nat
  bMax : Nat

def boxRanges (box : List Pixel) : Ranges :=
  box.foldl
    (fun a p =>
      { rMin := Nat.min a.rMin p.r, rMax := Nat.max a.rMax p.r,
        gMin := Nat.min a.gMin p.g, gMax := Nat.max a.gMax p.g,
        bMin := Nat.min a.bMin p.b, bMax := Nat.max a.bMax p.b })
    ⟨255, 0, 255, 0, 255, 0⟩

/-- The body of `medianCut`'s inner `for` loop for one box: skip empty boxes,
keep a monochrome box (all three channel ranges zero) unchanged, otherwise
sort by the channel with the largest range — note the source's `else if`
chain makes b win a tie with r — and split at the median index. -/
def splitOneBox (box : List Pixel) : List (List Pixel) :=
  if box.isEmpty then []
  else
    let rg := boxRanges box
    let rRange := rg.rMax - rg.rMin
    let gRange := rg.gMax - rg.gMin
    let bRange := rg.bMax - rg.bMin
    let maxRange := Nat.max rRange (Nat.max gRange bRange)
    if maxRange = 0 then [box]
    else
      let sortChannel :=
        if gRange = maxRange then Channel.g
        else if bRange = maxRange then Channel.b
        else Channel.r
      let sorted :=
        sSort (fun a b => decide (chan sortChannel a ≤ chan sortChannel b)) box
      let median := box.length / 2
      [sorted.take median, sorted.drop median]

/-- One iteration of `medianCut`'s `while` loop: rebuild the box list by
processing every box. -/
def stepBoxes (boxes : List (List Pixel)) : List (List Pixel) :=
  (boxes.map splitOneBox).flatten

/-- The `while (boxes.length < numColors && boxes.length < pixels.length)`
loop of `medianCut`, with explicit fuel: `none` means the loop has not
terminated within `fuel` iterations. -/
def medianCutLoop (numColors nPixels : Nat) : Nat → List (List Pixel) →
    Option (List (List Pixel))
  | 0, _ => none
  | fuel + 1, boxes =>
    if boxes.length < numColors ∧ boxes.length < nPixels then
      medianCutLoop numColors nPixels fuel (stepBoxes boxes)
    else some boxes

/-- An averaged palette entry: mean channel values and the box's pixel
count. -/
structure BoxColor where
  r : Nat
  g : Nat
  b : Nat
  count : Nat
deriving DecidableEq

/-- `Math.round(num / den)` for `den > 0`: round half away from zero, which
on nonnegative input is round half up. -/
def jsRound (num den : Nat) : Nat := (2 * num + den) / (2 * den)

/-- Averaging one final box (`continue` skips empty boxes). -/
def avgBox (box : List Pixel) : Option BoxColor :=
  if box.isEmpty then none
  else
    some { r := jsRound (box.map Pixel.r).sum box.length,
           g := jsRound (box.map Pixel.g).sum box.length,
           b := jsRound (box.map Pixel.b).sum box.length,
           count := box.length }

/-- The comparator `(a, b) => b.count - a.count` (descending by count,
stable). -/
def countGe (a b : BoxColor) : Bool := decide (b.count ≤ a.count)

/-- The epilogue of `medianCut`: average every nonempty box and sort the
palette descending by pixel count. -/
def finishBoxes (boxes : List (List Pixel)) : List BoxColor :=
  sSort countGe (boxes.filterMap avgBox)

/-- `medianCut(pixels, numColors)` from the color-detection utility: empty
input returns an empty palette at once; otherwise run the splitting loop
(fuelled — `none` models the loop not having exited) and average the final
boxes. -/
def medianCut (fuel : Nat) (pixels : List Pixel) (numColors : Nat) :
    Option (List BoxColor) :=
  if pixels.isEmpty then some []
  else (medianCutLoop numColors pixels.length fuel [pixels]).map finishBoxes

/-- `COLOR_NAMES` from the color-detection utility, with each hex literal
converted to its RGB triple (the conversion `hexToRgb` performs on these
static strings). -/
def COLOR_NAMES : List (String × List Pixel) :=
  [ ("đỏ", [⟨0xFF, 0x00, 0x00⟩, ⟨0xDC, 0x14, 0x3C⟩, ⟨0xB2, 0x22, 0x22⟩,
      ⟨0x8B, 0x00, 0x00⟩, ⟨0xFF, 0x63, 0x47⟩, ⟨0xFF, 0x45, 0x00⟩]),
    ("hồng", [⟨0xFF, 0xC0, 0xCB⟩, ⟨0xFF, 0x69, 0xB4⟩, ⟨0xFF, 0x14, 0x93⟩,
      ⟨0xFF, 0xB6, 0xC1⟩, ⟨0xFF, 0xA0, 0x7A⟩]),
    ("cam", [⟨0xFF, 0xA5, 0x00⟩, ⟨0xFF, 0x8C, 0x00⟩, ⟨0xFF, 0x7F, 0x50⟩,
      ⟨0xFF, 0x63, 0x47⟩]),
    ("vàng", [⟨0xFF, 0xFF, 0x00⟩, ⟨0xFF, 0xD7, 0x00⟩, ⟨0xFF, 0xA5, 0x00⟩,
      ⟨0xFF, 0xD7, 0x00⟩, ⟨0xFF, 0xE1, 0x35⟩]),
    ("vàng nhạt", [⟨0xFF, 0xFF, 0xE0⟩, ⟨0xFF, 0xFA, 0xCD⟩, ⟨0xFF, 0xEF, 0xD5⟩]),
    ("xanh lá", [⟨0x00, 0xFF, 0x00⟩, ⟨0x32, 0xCD, 0x32⟩, ⟨0x22, 0x8B, 0x22⟩,
      ⟨0x00, 0x80, 0x00⟩, ⟨0x00, 0xFF, 0x7F⟩, ⟨0x00, 0xFA, 0x9A⟩]),
    ("xanh lá cây", [⟨0x00, 0xFF, 0x00⟩, ⟨0x32, 0xCD, 0x32⟩, ⟨0x22, 0x8B, 0x22⟩,
      ⟨0x00, 0x80, 0x00⟩]),
    ("xanh lục", [⟨0x00, 0xFF, 0x00⟩, ⟨0x32, 0xCD, 0x32⟩, ⟨0x22, 0x8B, 0x22⟩,
      ⟨0x00, 0x80, 0x00⟩]),
    ("xanh dương", [⟨0x00, 0x00, 0xFF⟩, ⟨0x41, 0x69, 0xE1⟩, ⟨0x1E, 0x90, 0xFF⟩,
      ⟨0x00, 0x00, 0xCD⟩, ⟨0x00, 0x66, 0xCC⟩]),
    ("xanh", [⟨0x00, 0x00, 0xFF⟩, ⟨0x41, 0x69, 0xE1⟩, ⟨0x1E, 0x90, 0xFF⟩,
      ⟨0x00, 0x00, 0xCD⟩, ⟨0x00, 0x66, 0xCC⟩, ⟨0x00, 0xCE, 0xD1⟩,
      ⟨0x00, 0xBF, 0xFF⟩]),
    ("xanh nước biển", [⟨0x00, 0x00, 0xFF⟩, ⟨0x41, 0x69, 0xE1⟩,
      ⟨0x1E, 0x90, 0xFF⟩, ⟨0x00, 0x00, 0xCD⟩]),
    ("xanh da trời", [⟨0x87, 0xCE, 0xEB⟩, ⟨0x87, 0xCE, 0xFA⟩,
      ⟨0xB0, 0xE0, 0xE6⟩, ⟨0xAD, 0xD8, 0xE6⟩]),
    ("tím", [⟨0x80, 0x00, 0x80⟩, ⟨0x93, 0x70, 0xDB⟩, ⟨0x8B, 0x00, 0x8B⟩,
      ⟨0x94, 0x00, 0xD3⟩, ⟨0x99, 0x32, 0xCC⟩, ⟨0xBA, 0x55, 0xD3⟩]),
    ("nâu", [⟨0xA5, 0x2A, 0x2A⟩, ⟨0x8B, 0x45, 0x13⟩, ⟨0x65, 0x43, 0x21⟩,
      ⟨0xD2, 0x69, 0x1E⟩, ⟨0xCD, 0x85, 0x3F⟩]),
    ("đen", [⟨0x00, 0x00, 0x00⟩, ⟨0x1C, 0x1C, 0x1C⟩, ⟨0x2F, 0x2F, 0x2F⟩,
      ⟨0x3D, 0x3D, 0x3D⟩]),
    ("trắng", [⟨0xFF, 0xFF, 0xFF⟩, ⟨0xF5, 0xF5, 0xF5⟩, ⟨0xFA, 0xFA, 0xFA⟩,
      ⟨0xF0, 0xF0, 0xF0⟩]),
    ("xám", [⟨0x80, 0x80, 0x80⟩, ⟨0xA9, 0xA9, 0xA9⟩, ⟨0xC0, 0xC0, 0xC0⟩,
      ⟨0xD3, 0xD3, 0xD3⟩, ⟨0x69, 0x69, 0x69⟩]),
    ("grey", [⟨0x80, 0x80, 0x80⟩, ⟨0xA9, 0xA9, 0xA9⟩, ⟨0xC0, 0xC0, 0xC0⟩,
      ⟨0xD3, 0xD3, 0xD3⟩]),
    ("be", [⟨0xF5, 0xF5, 0xDC⟩, ⟨0xF5, 0xDE, 0xB3⟩, ⟨0xDE, 0xB8, 0x87⟩]),
    ("kem", [⟨0xFF, 0xF8, 0xDC⟩, ⟨0xFF, 0xE4, 0xB5⟩, ⟨0xFF, 0xEB, 0xCD⟩]) ]

/-- Squared Euclidean distance in RGB space.  The source compares
`Math.sqrt` values with strict `<`; since the square root is strictly
monotone on nonnegatives, comparing the squares is equivalent. -/
def colorDistanceSq (a b : Pixel) : Int :=
  ((a.r : Int) - b.r) ^ 2 + ((a.g : Int) - b.g) ^ 2 + ((a.b : Int) - b.b) ^ 2

/-- `findNearestColorName(rgb)`: brute-force scan of `COLOR_NAMES` in table
order, keeping the strictly closest reference seen so far (first encountered
wins ties); `minDistance` starts at infinity, modelled by the initial
`none`. -/
def findNearestColorName (c : Pixel) : Option String :=
  (COLOR_NAMES.foldl
    (fun best entry =>
      entry.2.foldl
        (fun best ref =>
          let d := colorDistanceSq c ref
          match best with
          | none => some (entry.1, d)
          | some (n, dmin) =>
            if d < dmin then some (entry.1, d) else some (n, dmin))
        best)
    none).map Prod.fst

/-- `Math.min` on (non-NaN) numbers. -/
def jsMin (a b : Rat) : Rat := if a ≤ b then a else b

/-- One palette entry as produced by `detectColors` (the `hex` field, a
string rendering of `rgb`, is omitted). -/
structure ColorResult where
  name : Option String
  rgb : Pixel
  confidence : Rat
deriving DecidableEq

/-- The palette-building part of `detectColors(blob, numColors)`: quantize
the (already extracted) pixels and map every dominant color to its nearest
name and its confidence `Math.min(count / pixels.length, 1.0)`. -/
def detectColorsFromPixels (fuel : Nat) (pixels : List Pixel)
    (numColors : Nat) : Option (List ColorResult) :=
  (medianCut fuel pixels numColors).map
    (fun colors =>
      colors.map
        (fun c =>
          { name := findNearestColorName ⟨c.r, c.g, c.b⟩,
            rgb := ⟨c.r, c.g, c.b⟩,
            confidence := jsMin ((c.count : Rat) / (pixels.length : Rat)) 1 }))

/-- `scoreOf m x`: `videoIdScores.get(x)` on the insertion-ordered map. -/
def scoreOf : List (String × Nat) → String → Option Nat
  | [], _ => none
  | p :: rest, x => if p.1 = x then some p.2 else scoreOf rest x

/-! ### Concrete fixtures used by witnesses and counterexamples -/

def emptyState : DBState :=
  { videos := [], frames := [], thumbnails := [], invertedIndex := [] }

def c1VideoA : Video :=
  { id := "a", url := "u1", author := "", caption := "", hashtags := [], viewedAt := 0 }

def c1VideoB : Video :=
  { id := "b", url := "u2", author := "", caption := "", hashtags := [], viewedAt := 0 }

def c1State : DBState :=
  { videos := [c1VideoA, c1VideoB], frames := [], thumbnails := [],
    invertedIndex := [{ token := "ao", ids := ["a", "b"] }, { token := "do", ids := ["a"] }] }

def c2Video : Video :=
  { id := "123", url := "u", author := "alice", caption := "hello world",
    hashtags := ["fashion"], viewedAt := 7 }

def c3Frame : Frame :=
  { key := "v:0", videoId := "v", ts := 0, blobData := none,
    imageEmbedding := none, colorPalette := none, analysis := none }

def c3State : DBState :=
  { videos := [], frames := [c3Frame], thumbnails := [], invertedIndex := [] }

def monoPixel : Pixel := ⟨0, 0, 0⟩

def c5Pixels : List Pixel :=
  [⟨255, 0, 0⟩, ⟨255, 0, 0⟩, ⟨255, 0, 0⟩, ⟨255, 0, 0⟩, ⟨0, 0, 255⟩]

def c6Thumb (k t : Nat) : Thumb :=
  { key := String.mk (List.replicate k 'a'), videoId := "v", url := "",
    ts := t, dataUrl := "", width := 0, height := 0 }

def c6W (i : Nat) : Thumb := c6Thumb (i + 1) (i + 1)

def c6WitnessList : List Thumb := (List.range 501).map c6W

def c6CtrList : List Thumb := ((List.range 500).map c6W) ++ [c6Thumb 502 0]

def c7Video1 : Video :=
  { id := "1", url := "", author := "", caption := "", hashtags := [], viewedAt := 0 }

def c7Video2 : Video :=
  { id := "2", url := "", author := "", caption := "", hashtags := [], viewedAt := 0 }

def c7State : DBState :=
  { videos := [c7Video1, c7Video2], frames := [], thumbnails := [],
    invertedIndex := [{ token := "ab", ids := ["1"] }, { token := "cd", ids := ["2"] }] }

def c8Settings : Settings :=
  { enableAI := true, enableCloudVision := true, cloudVisionApiKey := "key" }

def c8FrameData : FrameData :=
  { key := "v:1", videoId := "v", ts := 1, blob := BlobInput.arrayBuffer [1, 2],
    imageEmbedding := none, colorPalette := none }

def c10FrameAbsent : FrameData :=
  { key := "v:2", videoId := "v", ts := 2, blob := BlobInput.absent,
    imageEmbedding := none, colorPalette := none }

def c10FrameBad : FrameData :=
  { key := "v:3", videoId := "v", ts := 3, blob := BlobInput.unrecognized,
    imageEmbedding := none, colorPalette := none }

/-! ### Theorems -/

/-- Claim C9: the retention and quota pass (time-based cleanup and the
count-based backstop) never deletes or modifies any Item record and never
deletes or modifies any posting entry: after a full cleanup cycle (and after
each of its two constituents) the videos collection and the inverted-index
collection are unchanged. -/
theorem C9_cleanup_preserves_items_and_postings (now : Nat) (s : DBState) :
    (cleanupCycle now s).videos = s.videos ∧
    (cleanupCycle now s).invertedIndex = s.invertedIndex ∧
    (cleanupOldFrames now s).videos = s.videos ∧
    (cleanupOldFrames now s).invertedIndex = s.invertedIndex ∧
    (checkDBSize now s).videos = s.videos ∧
    (checkDBSize now s).invertedIndex = s.invertedIndex := by
  unfold cleanupCycle checkDBSize cleanupOldFrames
  refine ⟨?_, ?_, rfl, rfl, ?_, ?_⟩ <;> (split <;> rfl)

/-- Claim C3, counterexample: the cleanup pass deletes a frame whose
`capturedAt` is exactly the horizon `H = now − 30 days`, contradicting
"every Snapshot with capturedAt ≥ H is still present".  Here `now` is 30
days in milliseconds, so `H = 0` and the stored frame has `ts = 0 = H`. -/
theorem C3_counterexample :
    RETENTION_MS - RETENTION_MS ≤ c3Frame.ts ∧
    c3Frame ∈ c3State.frames ∧
    c3Frame ∉ (cleanupOldFrames RETENTION_MS c3State).frames := by decide

/-- Claim C3 (amended): after one run of the cleanup pass with horizon
`H = now − 30 days`, a frame or thumbnail remains exactly when its
`capturedAt` is strictly greater than `H`; equivalently, every record with
`capturedAt ≤ H` is removed (the cursor bound is inclusive) and every record
with `capturedAt > H` is kept. -/
theorem C3_retention_boundary (now : Nat) (s : DBState) :
    (∀ f : Frame, f ∈ (cleanupOldFrames now s).frames ↔
      f ∈ s.frames ∧ now - RETENTION_MS < f.ts) ∧
    (∀ t : Thumb, t ∈ (cleanupOldFrames now s).thumbnails ↔
      t ∈ s.thumbnails ∧ now - RETENTION_MS < t.ts) := by
  constructor <;> intro x <;>
    simp [cleanupOldFrames, List.mem_filter]

/-- Claim C4: the median-cut splitting loop does NOT terminate on every
input.  On a sample of two identical pixels with a requested color count of
2, the loop guard `boxes.length < numColors && boxes.length < pixels.length`
stays true while the single monochrome bucket is reproduced unchanged, so no
amount of fuel makes the loop exit: the code loops forever. -/
theorem C4_medianCut_loop_never_exits (fuel : Nat) :
    medianCut fuel [monoPixel, monoPixel] 2 = none := by
  have key : ∀ n : Nat, medianCutLoop 2 2 n [[monoPixel, monoPixel]] = none := by
    intro n
    induction n with
    | zero => rfl
    | succ m ih =>
      have hguard : ([[monoPixel, monoPixel]] : List (List Pixel)).length < 2 ∧
          ([[monoPixel, monoPixel]] : List (List Pixel)).length < 2 := by decide
      have hstep : stepBoxes [[monoPixel, monoPixel]] = [[monoPixel, monoPixel]] := by
        decide
      rw [medianCutLoop, if_pos hguard, hstep]
      exact ih
  show Option.map finishBoxes (medianCutLoop 2 2 fuel [[monoPixel, monoPixel]]) = none
  rw [key fuel]
  rfl

/-- The palette computed on the 80% red / 20% blue 5-pixel sample with k=2:
the sorted split puts two pure reds in one bucket and three pixels (two reds
and the blue) in the dominant bucket, whose average still maps to the red
lexicon entry. -/
theorem c5_palette_eq :
    detectColorsFromPixels 10 c5Pixels 2 =
      some [ { name := some "đỏ", rgb := ⟨170, 0, 85⟩, confidence := (3 : Rat)/5 },
             { name := some "đỏ", rgb := ⟨255, 0, 0⟩, confidence := (2 : Rat)/5 } ] := by
  have hq : medianCut 10 c5Pixels 2 =
      some [⟨170, 0, 85, 3⟩, ⟨255, 0, 0, 2⟩] := by decide
  have h1 : findNearestColorName ⟨170, 0, 85⟩ = some "đỏ" := by decide
  have h2 : findNearestColorName ⟨255, 0, 0⟩ = some "đỏ" := by decide
  have hlen : (c5Pixels.length : Rat) = 5 := by norm_num [c5Pixels]
  unfold detectColorsFromPixels
  rw [hq]
  simp only [Option.map_some', List.map_cons, List.map_nil, h1, h2, hlen]
  norm_num [jsMin]

/-- Claim C5, counterexample: quantizing the 5-pixel sample that is 80% pure
red and 20% pure blue with k=2 yields a palette whose first entry has
confidence 3/5 = 0.6, not approximately 0.8 (it is not even within 0.1 of
0.8): the median split leaves only 3 of the 5 pixels in the dominant
bucket. -/
theorem C5_counterexample :
    detectColorsFromPixels 10 c5Pixels 2 =
      some [ { name := some "đỏ", rgb := ⟨170, 0, 85⟩, confidence := (3 : Rat)/5 },
             { name := some "đỏ", rgb := ⟨255, 0, 0⟩, confidence := (2 : Rat)/5 } ] ∧
    ¬ |(3 : Rat)/5 - 4/5| ≤ 1/10 := by
  refine ⟨c5_palette_eq, ?_⟩
  rw [abs_le]
  push_neg
  norm_num

/-- Claim C5 (amended): quantizing the 5-pixel sample that is 80% pure red
and 20% pure blue with k=2 yields a 2-color palette whose first
(highest-weight) entry maps by nearest-name lookup to the lexicon's red entry
("đỏ"), but whose confidence is 3/5 = 0.6 rather than approximately 0.8,
because the median split puts only 3 of the 5 pixels in the dominant
bucket. -/
theorem C5_red_blue_palette :
    ((detectColorsFromPixels 10 c5Pixels 2).getD []).length = 2 ∧
    (((detectColorsFromPixels 10 c5Pixels 2).getD []).head?.map ColorResult.name)
      = some (some "đỏ") ∧
    (((detectColorsFromPixels 10 c5Pixels 2).getD []).head?.map ColorResult.confidence)
      = some ((3 : Rat)/5) := by
  rw [c5_palette_eq]
  exact ⟨rfl, rfl, rfl⟩

theorem lookupVideo_putVideo_self (l : List Video) (v : Video) :
    lookupVideo (putVideo l v) v.id = some v := by
  induction l with
  | nil => simp [putVideo, lookupVideo]
  | cons w rest ih =>
    by_cases h : w.id = v.id
    · simp [putVideo, h, lookupVideo]
    · simp [putVideo, h, lookupVideo, ih]

theorem lookupVideo_id (l : List Video) (id : String) (v : Video)
    (h : lookupVideo l id = some v) : v.id = id := by
  induction l with
  | nil => simp [lookupVideo] at h
  | cons w rest ih =>
    by_cases hw : w.id = id
    · rw [lookupVideo, if_pos hw] at h
      cases h
      exact hw
    · rw [lookupVideo, if_neg hw] at h
      exact ih h

theorem putVideo_of_lookup_none (l : List Video) (v : Video)
    (h : lookupVideo l v.id = none) : putVideo l v = l ++ [v] := by
  induction l with
  | nil => rfl
  | cons w rest ih =>
    rw [lookupVideo] at h
    by_cases hw : w.id = v.id
    · rw [if_pos hw] at h
      cases h
    · rw [if_neg hw] at h
      rw [putVideo, if_neg hw, ih h]
      rfl

theorem countP_id_zero (l : List Video) (id : String)
    (h : lookupVideo l id = none) :
    l.countP (fun x => decide (x.id = id)) = 0 := by
  induction l with
  | nil => rfl
  | cons w rest ih =>
    rw [lookupVideo] at h
    by_cases hw : w.id = id
    · rw [if_pos hw] at h
      cases h
    · rw [if_neg hw] at h
      simp [List.countP_cons, hw, ih h]

theorem countP_id_one (l : List Video) (id : String)
    (hnd : (l.map Video.id).Nodup) (u : Video)
    (h : lookupVideo l id = some u) :
    l.countP (fun x => decide (x.id = id)) = 1 := by
  induction l with
  | nil => simp [lookupVideo] at h
  | cons w rest ih =>
    rw [List.map_cons, List.nodup_cons] at hnd
    by_cases hw : w.id = id
    · rw [lookupVideo, if_pos hw] at h
      have hzero : rest.countP (fun x => decide (x.id = id)) = 0 := by
        rw [List.countP_eq_zero]
        intro a ha
        simp only [decide_eq_true_eq]
        intro hai
        exact hnd.1 (hw ▸ hai ▸ List.mem_map_of_mem Video.id ha)
      simp [List.countP_cons, hw, hzero]
    · rw [lookupVideo, if_neg hw] at h
      simp [List.countP_cons, hw, ih hnd.2 h]

/-- Claim C2: calling `saveVideo` twice with the same id leaves the state of
the first call untouched (the second call performs no writes and reports
"already indexed"), exactly one video record with that id is stored, every
posting list is unchanged by the second call, and — when the id was new —
the first candidate's record is the one stored (first write wins). -/
theorem C2_ingestItem_idempotent (s : DBState) (v w : Video)
    (hid : w.id = v.id)
    (hnd : (s.videos.map Video.id).Nodup) :
    (saveVideo (saveVideo s v).1 w).1 = (saveVideo s v).1 ∧
    (saveVideo (saveVideo s v).1 w).2 = SaveResult.alreadyIndexed ∧
    (saveVideo (saveVideo s v).1 w).1.videos.countP (fun x => decide (x.id = v.id)) = 1 ∧
    (saveVideo (saveVideo s v).1 w).1.invertedIndex = (saveVideo s v).1.invertedIndex ∧
    (lookupVideo s.videos v.id = none →
      lookupVideo (saveVideo (saveVideo s v).1 w).1.videos v.id = some v) := by
  have lookup_some : ∀ (s' : DBState) (v' u' : Video),
      lookupVideo s'.videos v'.id = some u' →
      saveVideo s' v' = (s', SaveResult.alreadyIndexed) := by
    intro s' v' u' h'
    unfold saveVideo
    rw [h']
  cases h : lookupVideo s.videos v.id with
  | some u =>
    have e1 : saveVideo s v = (s, SaveResult.alreadyIndexed) :=
      lookup_some s v u h
    have e2 : saveVideo (saveVideo s v).1 w = ((saveVideo s v).1, SaveResult.alreadyIndexed) :=
      lookup_some (saveVideo s v).1 w u (by rw [e1, hid]; exact h)
    refine ⟨by rw [e2], by rw [e2], ?_, by rw [e2], ?_⟩
    · rw [e2, e1]
      exact countP_id_one s.videos v.id hnd u h
    · intro h0
      exact Option.noConfusion h0
  | none =>
    have e1 : (saveVideo s v).1 =
        { s with
          videos := putVideo s.videos v,
          invertedIndex := updateInvertedIndex s.invertedIndex v.id
            (extractTokens (String.intercalate " "
              ([v.caption] ++ v.hashtags ++ [v.author]))) } := by
      unfold saveVideo
      rw [h]
    have hlook : lookupVideo (saveVideo s v).1.videos w.id = some v := by
      rw [e1, hid]
      exact lookupVideo_putVideo_self s.videos v
    have e2 : saveVideo (saveVideo s v).1 w = ((saveVideo s v).1, SaveResult.alreadyIndexed) :=
      lookup_some (saveVideo s v).1 w v hlook
    have hput : putVideo s.videos v = s.videos ++ [v] := putVideo_of_lookup_none s.videos v h
    refine ⟨by rw [e2], by rw [e2], ?_, by rw [e2], ?_⟩
    · rw [e2, e1]
      simp only [hput, List.countP_append, countP_id_zero s.videos v.id h]
      simp [List.countP_cons]
    · intro _
      rw [e2, ← hid]
      exact hlook

/-- Claim C2, witness. -/
theorem C2_ingestItem_idempotent_witness :
    ("123" : String) = c2Video.id ∧ (emptyState.videos.map Video.id).Nodup ∧
    ((saveVideo (saveVideo emptyState c2Video).1 c2Video).1 = (saveVideo emptyState c2Video).1 ∧
     (saveVideo (saveVideo emptyState c2Video).1 c2Video).2 = SaveResult.alreadyIndexed ∧
     (saveVideo (saveVideo emptyState c2Video).1 c2Video).1.videos.countP
       (fun x => decide (x.id = c2Video.id)) = 1 ∧
     (saveVideo (saveVideo emptyState c2Video).1 c2Video).1.invertedIndex =
       (saveVideo emptyState c2Video).1.invertedIndex ∧
     (lookupVideo emptyState.videos c2Video.id = none →
       lookupVideo (saveVideo (saveVideo emptyState c2Video).1 c2Video).1.videos c2Video.id =
         some c2Video)) :=
  ⟨rfl, by decide,
    C2_ingestItem_idempotent emptyState c2Video c2Video rfl (by decide)⟩

theorem lookupFrame_putFrame_self (l : List Frame) (f : Frame) :
    lookupFrame (putFrame l f) f.key = some f := by
  induction l with
  | nil => simp [putFrame, lookupFrame]
  | cons g rest ih =>
    by_cases h : g.key = f.key
    · simp [putFrame, h, lookupFrame]
    · simp [putFrame, h, lookupFrame, ih]

/-- Claim C8: when the vision-analysis step is enabled and it fails (the
fetch throws, or the response is non-200 — both yield `null` from
`analyzeImageWithCloudVision`), `saveFrame` still stores the frame record
(with no analysis attached), leaves the inverted index untouched, and
reports success. -/
theorem C8_analysis_failure_still_saves (s : DBState) (settings : Settings)
    (outcome : VisionOutcome) (fd : FrameData) (bd : Option (List Nat))
    (hb : classifyBlob fd.blob = some bd)
    (hen : visionEnabled settings bd = true)
    (hfail : analyzeImageWithCloudVision outcome = none) :
    (saveFrame s settings outcome fd).2 = FrameResult.ok ∧
    lookupFrame (saveFrame s settings outcome fd).1.frames fd.key =
      some { key := fd.key, videoId := fd.videoId, ts := fd.ts, blobData := bd,
             imageEmbedding := fd.imageEmbedding, colorPalette := fd.colorPalette,
             analysis := none } ∧
    (saveFrame s settings outcome fd).1.invertedIndex = s.invertedIndex := by
  have e : saveFrame s settings outcome fd =
      ({ s with
          frames := putFrame s.frames
            { key := fd.key, videoId := fd.videoId, ts := fd.ts, blobData := bd,
              imageEmbedding := fd.imageEmbedding, colorPalette := fd.colorPalette,
              analysis := none },
          invertedIndex := s.invertedIndex }, FrameResult.ok) := by
    unfold saveFrame
    rw [hb]
    simp [hen, hfail]
  refine ⟨by rw [e], ?_, by rw [e]⟩
  rw [e]
  exact lookupFrame_putFrame_self s.frames _

/-- Claim C8, witness: a network failure of the vision call with analysis
enabled and a valid binary payload. -/
theorem C8_analysis_failure_still_saves_witness :
    classifyBlob c8FrameData.blob = some (some [1, 2]) ∧
    visionEnabled c8Settings (some [1, 2]) = true ∧
    analyzeImageWithCloudVision VisionOutcome.netError = none ∧
    ((saveFrame emptyState c8Settings VisionOutcome.netError c8FrameData).2 = FrameResult.ok ∧
     lookupFrame (saveFrame emptyState c8Settings VisionOutcome.netError c8FrameData).1.frames
        c8FrameData.key =
       some { key := c8FrameData.key, videoId := c8FrameData.videoId, ts := c8FrameData.ts,
              blobData := some [1, 2], imageEmbedding := c8FrameData.imageEmbedding,
              colorPalette := c8FrameData.colorPalette, analysis := none } ∧
     (saveFrame emptyState c8Settings VisionOutcome.netError c8FrameData).1.invertedIndex =
       emptyState.invertedIndex) :=
  ⟨rfl, by decide, rfl,
    C8_analysis_failure_still_saves emptyState c8Settings VisionOutcome.netError
      c8FrameData (some [1, 2]) rfl (by decide) rfl⟩

/-- Claim C10: a snapshot candidate whose blob field is absent is stored
successfully with `null` image data, and the "Invalid blob type" rejection
arises only for a present but unrecognized blob shape. -/
theorem C10_absent_blob_stored (s : DBState) (settings : Settings)
    (outcome : VisionOutcome) (fd : FrameData) :
    (fd.blob = BlobInput.absent →
      (saveFrame s settings outcome fd).2 = FrameResult.ok ∧
      lookupFrame (saveFrame s settings outcome fd).1.frames fd.key =
        some { key := fd.key, videoId := fd.videoId, ts := fd.ts, blobData := none,
               imageEmbedding := fd.imageEmbedding, colorPalette := fd.colorPalette,
               analysis := none }) ∧
    ((saveFrame s settings outcome fd).2 = FrameResult.error "Invalid blob type" →
      fd.blob = BlobInput.unrecognized) := by
  constructor
  · intro h
    have e : saveFrame s settings outcome fd =
        ({ s with
            frames := putFrame s.frames
              { key := fd.key, videoId := fd.videoId, ts := fd.ts, blobData := none,
                imageEmbedding := fd.imageEmbedding, colorPalette := fd.colorPalette,
                analysis := none },
            invertedIndex := s.invertedIndex }, FrameResult.ok) := by
      unfold saveFrame
      rw [h]
      simp [classifyBlob, visionEnabled]
    refine ⟨by rw [e], ?_⟩
    rw [e]
    exact lookupFrame_putFrame_self s.frames _
  · intro h
    cases hb : fd.blob with
    | unrecognized => rfl
    | absent =>
      unfold saveFrame at h
      rw [hb] at h
      simp [classifyBlob] at h
    | blobObj b =>
      unfold saveFrame at h
      rw [hb] at h
      simp [classifyBlob] at h
    | arrayBuffer b =>
      unfold saveFrame at h
      rw [hb] at h
      simp [classifyBlob] at h
    | byteLengthObj b =>
      unfold saveFrame at h
      rw [hb] at h
      simp [classifyBlob] at h
    | numArray b =>
      unfold saveFrame at h
      rw [hb] at h
      simp [classifyBlob] at h

/-- Claim C10, witness: an absent blob is stored with null data; an
unrecognized shape is the one rejected with "Invalid blob type". -/
theorem C10_absent_blob_stored_witness :
    c10FrameAbsent.blob = BlobInput.absent ∧
    ((saveFrame emptyState c8Settings VisionOutcome.netError c10FrameAbsent).2 =
        FrameResult.ok ∧
      lookupFrame
          (saveFrame emptyState c8Settings VisionOutcome.netError c10FrameAbsent).1.frames
          c10FrameAbsent.key =
        some { key := c10FrameAbsent.key, videoId := c10FrameAbsent.videoId,
               ts := c10FrameAbsent.ts, blobData := none,
               imageEmbedding := c10FrameAbsent.imageEmbedding,
               colorPalette := c10FrameAbsent.colorPalette, analysis := none }) ∧
    (saveFrame emptyState c8Settings VisionOutcome.netError c10FrameBad).2 =
      FrameResult.error "Invalid blob type" ∧
    c10FrameBad.blob = BlobInput.unrecognized :=
  ⟨rfl,
    (C10_absent_blob_stored emptyState c8Settings VisionOutcome.netError c10FrameAbsent).1 rfl,
    by decide,
    (C10_absent_blob_stored emptyState c8Settings VisionOutcome.netError c10FrameBad).2
      (by decide)⟩

theorem sInsert_perm (r : α → α → Bool) (x : α) (l : List α) :
    (sInsert r x l).Perm (x :: l) := by
  induction l with
  | nil => exact List.Perm.refl _
  | cons y ys ih =>
    rw [sInsert]
    by_cases hr : r x y = true
    · rw [if_pos hr]
    · rw [if_neg hr]
      exact (ih.cons y).trans (List.Perm.swap x y ys)

theorem sSort_perm (r : α → α → Bool) (l : List α) : (sSort r l).Perm l := by
  induction l with
  | nil => exact List.Perm.refl _
  | cons x xs ih => exact (sInsert_perm r x (sSort r xs)).trans (ih.cons x)

theorem sInsert_pairwise (r : α → α → Bool)
    (htrans : ∀ a b c, r a b = true → r b c = true → r a c = true)
    (htot : ∀ a b, r a b = false → r b a = true)
    (x : α) (l : List α) (hl : l.Pairwise (fun a b => r a b = true)) :
    (sInsert r x l).Pairwise (fun a b => r a b = true) := by
  induction l with
  | nil => simp [sInsert]
  | cons y ys ih =>
    rw [List.pairwise_cons] at hl
    rw [sInsert]
    by_cases hr : r x y = true
    · rw [if_pos hr]
      refine List.Pairwise.cons ?_ (List.Pairwise.cons hl.1 hl.2)
      intro z hz
      rcases List.mem_cons.mp hz with h1 | h2
      · exact h1 ▸ hr
      · exact htrans x y z hr (hl.1 z h2)
    · rw [if_neg hr]
      have hfy : r x y = false := by
        cases hxy : r x y
        · rfl
        · exact absurd hxy hr
      refine List.Pairwise.cons ?_ (ih hl.2)
      intro z hz
      have hz' := (sInsert_perm r x ys).mem_iff.mp hz
      rcases List.mem_cons.mp hz' with h1 | h2
      · exact h1 ▸ htot x y hfy
      · exact hl.1 z h2

theorem sSort_pairwise (r : α → α → Bool)
    (htrans : ∀ a b c, r a b = true → r b c = true → r a c = true)
    (htot : ∀ a b, r a b = false → r b a = true) (l : List α) :
    (sSort r l).Pairwise (fun a b => r a b = true) := by
  induction l with
  | nil => simp [sSort]
  | cons x xs ih => exact sInsert_pairwise r htrans htot x _ ih

theorem sInsert_filter_key (r : α → α → Bool) (k : α → Nat)
    (hk : ∀ a b, k a = k b → r a b = true) (x : α) (l : List α) (n : Nat) :
    (sInsert r x l).filter (fun z => decide (k z = n)) =
      if k x = n then x :: l.filter (fun z => decide (k z = n))
      else l.filter (fun z => decide (k z = n)) := by
  induction l with
  | nil =>
    by_cases hx : k x = n <;> simp [sInsert, List.filter_cons, hx]
  | cons y ys ih =>
    rw [sInsert]
    by_cases hr : r x y = true
    · rw [if_pos hr]
      by_cases hx : k x = n <;> simp [List.filter_cons, hx]
    · rw [if_neg hr]
      have hfy : r x y = false := by
        cases hxy : r x y
        · rfl
        · exact absurd hxy hr
      have hky : ¬ k x = k y := by
        intro he
        rw [hk x y he] at hfy
        exact Bool.noConfusion hfy
      by_cases hx : k x = n
      · have hkyn : ¬ (k y = n) := fun hyn => hky (hx.trans hyn.symm)
        simp [List.filter_cons, hkyn, hx, ih]
      · by_cases hy : k y = n <;> simp [List.filter_cons, hy, hx, ih]

theorem sSort_filter_key (r : α → α → Bool) (k : α → Nat)
    (hk : ∀ a b, k a = k b → r a b = true) (l : List α) (n : Nat) :
    (sSort r l).filter (fun z => decide (k z = n)) =
      l.filter (fun z => decide (k z = n)) := by
  induction l with
  | nil => rfl
  | cons x xs ih =>
    rw [sSort, sInsert_filter_key r k hk]
    by_cases hx : k x = n <;> simp [List.filter_cons, hx, ih]

theorem sSort_eq_self (r : α → α → Bool) (l : List α)
    (hl : l.Pairwise (fun a b => r a b = true)) : sSort r l = l := by
  induction l with
  | nil => rfl
  | cons x xs ih =>
    rw [List.pairwise_cons] at hl
    rw [sSort, ih hl.2]
    cases xs with
    | nil => rfl
    | cons y ys =>
      rw [sInsert, if_pos (hl.1 y (List.mem_cons_self y ys))]

theorem scoreOf_bumpId (m : List (String × Nat)) (id x : String) :
    scoreOf (bumpId m id) x =
      if x = id then some ((scoreOf m x).getD 0 + 1) else scoreOf m x := by
  induction m with
  | nil =>
    by_cases hx : x = id
    · subst hx
      simp [bumpId, scoreOf]
    · simp [bumpId, scoreOf, hx, Ne.symm hx]
  | cons p rest ih =>
    by_cases hp : p.1 = id
    · rw [bumpId, if_pos hp]
      by_cases hx : x = id
      · subst hx
        simp [scoreOf, hp]
      · have hpx : ¬ p.1 = x := fun h => hx (h.symm.trans hp)
        simp [scoreOf, hpx, hx]
    · rw [bumpId, if_neg hp]
      by_cases hpx : p.1 = x
      · have hx : ¬ x = id := fun h => hp (hpx.trans h)
        simp [scoreOf, hpx, hx]
      · simp [scoreOf, hpx, ih]

theorem keys_bumpId (m : List (String × Nat)) (id : String) :
    (bumpId m id).map Prod.fst =
      if id ∈ m.map Prod.fst then m.map Prod.fst else m.map Prod.fst ++ [id] := by
  induction m with
  | nil => simp [bumpId]
  | cons p rest ih =>
    by_cases hp : p.1 = id
    · rw [bumpId, if_pos hp]
      simp [hp]
    · rw [bumpId, if_neg hp]
      by_cases hmem : id ∈ rest.map Prod.fst <;>
        simp [List.map_cons, ih, hmem, hp, Ne.symm hp]

theorem scoreOf_accIds (ids : List String) (m : List (String × Nat)) (x : String)
    (hnd : ids.Nodup) :
    scoreOf (accIds m ids) x =
      if x ∈ ids then some ((scoreOf m x).getD 0 + 1) else scoreOf m x := by
  induction ids generalizing m with
  | nil => simp [accIds]
  | cons i rest ih =>
    rw [List.nodup_cons] at hnd
    have hstep : accIds m (i :: rest) = accIds (bumpId m i) rest := rfl
    rw [hstep]
    by_cases hx : x = i
    · subst hx
      rw [ih (bumpId m x) hnd.2, if_neg hnd.1, scoreOf_bumpId, if_pos rfl,
        if_pos (List.mem_cons_self x rest)]
    · rw [ih (bumpId m i) hnd.2, scoreOf_bumpId, if_neg hx]
      by_cases hxr : x ∈ rest <;> simp [List.mem_cons, hx, hxr]

theorem scoreOf_accTokens (idx : List Posting) (toks : List String)
    (hnd : ∀ t ∈ toks, (getPosting idx t).Nodup) (m : List (String × Nat)) (x : String) :
    scoreOf (toks.foldl (fun m t => accIds m (getPosting idx t)) m) x =
      if matchCount idx toks x = 0 then scoreOf m x
      else some ((scoreOf m x).getD 0 + matchCount idx toks x) := by
  induction toks generalizing m with
  | nil => simp [matchCount]
  | cons t rest ih =>
    have hfold : (t :: rest).foldl (fun m t => accIds m (getPosting idx t)) m
        = rest.foldl (fun m t => accIds m (getPosting idx t))
            (accIds m (getPosting idx t)) := rfl
    by_cases hxt : x ∈ getPosting idx t
    · have hmc1 : matchCount idx (t :: rest) x = matchCount idx rest x + 1 := by
        simp [matchCount, List.countP_cons, hxt]
      rw [hfold, ih (fun u hu => hnd u (List.mem_cons_of_mem t hu)),
        scoreOf_accIds _ _ _ (hnd t (List.mem_cons_self t rest)), if_pos hxt, hmc1]
      by_cases h0 : matchCount idx rest x = 0
      · rw [if_pos h0, h0]
        simp
      · rw [if_neg h0, if_neg (by omega)]
        simp only [Option.getD_some]
        congr 1
        omega
    · have hmc1 : matchCount idx (t :: rest) x = matchCount idx rest x := by
        simp [matchCount, List.countP_cons, hxt]
      rw [hfold, ih (fun u hu => hnd u (List.mem_cons_of_mem t hu)),
        scoreOf_accIds _ _ _ (hnd t (List.mem_cons_self t rest)), if_neg hxt, hmc1]

theorem scoreOf_accScores (idx : List Posting) (toks : List String) (x : String)
    (hnd : ∀ t ∈ toks, (getPosting idx t).Nodup) :
    scoreOf (accScores idx toks) x =
      if matchCount idx toks x = 0 then none else some (matchCount idx toks x) := by
  have h := scoreOf_accTokens idx toks hnd [] x
  simpa [accScores, scoreOf] using h

theorem keys_accIds (ids : List String) (m : List (String × Nat)) :
    (accIds m ids).map Prod.fst =
      ids.foldl (fun ks x => if x ∈ ks then ks else ks ++ [x]) (m.map Prod.fst) := by
  induction ids generalizing m with
  | nil => rfl
  | cons i rest ih =>
    have hstep : accIds m (i :: rest) = accIds (bumpId m i) rest := rfl
    rw [hstep, ih, keys_bumpId]
    rfl

theorem foldl_step_flatten (ll : List (List String)) (init : List String) :
    (ll.flatten).foldl (fun ks x => if x ∈ ks then ks else ks ++ [x]) init =
      ll.foldl
        (fun ks l => l.foldl (fun ks x => if x ∈ ks then ks else ks ++ [x]) ks)
        init := by
  induction ll generalizing init with
  | nil => rfl
  | cons l rest ih =>
    rw [List.flatten_cons, List.foldl_append, List.foldl_cons, ih]

theorem keys_accScores (idx : List Posting) (toks : List String) :
    (accScores idx toks).map Prod.fst =
      firstDedup ((toks.map (getPosting idx)).flatten) := by
  have gen : ∀ m : List (String × Nat),
      (toks.foldl (fun m t => accIds m (getPosting idx t)) m).map Prod.fst =
        toks.foldl
          (fun ks t => (getPosting idx t).foldl
            (fun ks x => if x ∈ ks then ks else ks ++ [x]) ks)
          (m.map Prod.fst) := by
    induction toks with
    | nil => intro m; rfl
    | cons t rest ih =>
      intro m
      rw [List.foldl_cons, List.foldl_cons, ih, keys_accIds]
  rw [firstDedup, foldl_step_flatten, List.foldl_map]
  exact gen []

theorem mem_foldl_step (l : List String) (init : List String) (x : String) :
    (x ∈ l.foldl (fun ks y => if y ∈ ks then ks else ks ++ [y]) init) ↔
      x ∈ init ∨ x ∈ l := by
  induction l generalizing init with
  | nil => simp
  | cons y ys ih =>
    rw [List.foldl_cons]
    by_cases hy : y ∈ init
    · rw [if_pos hy, ih]
      constructor
      · rintro (h | h)
        · exact Or.inl h
        · exact Or.inr (List.mem_cons_of_mem y h)
      · rintro (h | h)
        · exact Or.inl h
        · rcases List.mem_cons.mp h with h1 | h2
          · exact Or.inl (h1 ▸ hy)
          · exact Or.inr h2
    · rw [if_neg hy, ih]
      simp [List.mem_append, List.mem_cons]
      tauto

theorem nodup_foldl_step (l : List String) (init : List String) (h : init.Nodup) :
    (l.foldl (fun ks y => if y ∈ ks then ks else ks ++ [y]) init).Nodup := by
  induction l generalizing init with
  | nil => exact h
  | cons y ys ih =>
    rw [List.foldl_cons]
    by_cases hy : y ∈ init
    · rw [if_pos hy]
      exact ih init h
    · rw [if_neg hy]
      refine ih _ ?_
      rw [List.nodup_append]
      exact ⟨h, List.nodup_singleton y, by simpa [List.disjoint_singleton] using hy⟩

theorem firstDedup_nodup (l : List String) : (firstDedup l).Nodup :=
  nodup_foldl_step l [] List.nodup_nil

theorem scoreOf_isSome_iff_mem_keys (m : List (String × Nat)) (x : String) :
    (scoreOf m x).isSome = true ↔ x ∈ m.map Prod.fst := by
  induction m with
  | nil => simp [scoreOf]
  | cons p rest ih =>
    by_cases hp : p.1 = x
    · simp [scoreOf, hp]
    · simp [scoreOf, hp, ih, Ne.symm hp]

theorem pair_mem_iff_scoreOf (m : List (String × Nat))
    (hnd : (m.map Prod.fst).Nodup) (x : String) (n : Nat) :
    (x, n) ∈ m ↔ scoreOf m x = some n := by
  induction m with
  | nil => simp [scoreOf]
  | cons p rest ih =>
    rw [List.map_cons, List.nodup_cons] at hnd
    by_cases hp : p.1 = x
    · rw [scoreOf, if_pos hp]
      constructor
      · intro h
        rcases List.mem_cons.mp h with h1 | h2
        · rw [← h1]
        · exfalso
          apply hnd.1
          rw [hp]
          exact (List.mem_map_of_mem Prod.fst h2 : x ∈ _)
      · intro h
        cases h
        have hx : (x, p.2) = p := by rw [← hp]
        rw [hx]
        exact List.mem_cons_self p rest
    · rw [scoreOf, if_neg hp]
      constructor
      · intro h
        rcases List.mem_cons.mp h with h1 | h2
        · exact absurd (congrArg Prod.fst h1.symm) hp
        · exact (ih hnd.2).mp h2
      · intro h
        exact List.mem_cons_of_mem p ((ih hnd.2).mpr h)

theorem lookupVideo_isSome_exists (vids : List Video) (id : String)
    (h : (lookupVideo vids id).isSome = true) :
    ∃ v, lookupVideo vids id = some v := by
  cases hv : lookupVideo vids id with
  | none => rw [hv] at h; cases h
  | some v => exact ⟨v, rfl⟩

theorem filterMap_lookup_map_id (ids : List String) (vids : List Video)
    (h : ∀ id ∈ ids, (lookupVideo vids id).isSome = true) :
    (ids.filterMap (fun id => lookupVideo vids id)).map Video.id = ids := by
  induction ids with
  | nil => rfl
  | cons i rest ih =>
    obtain ⟨v, hv⟩ := lookupVideo_isSome_exists vids i (h i (List.mem_cons_self i rest))
    rw [List.filterMap_cons_some hv, List.map_cons,
      lookupVideo_id vids i v hv,
      ih (fun id hid => h id (List.mem_cons_of_mem i hid))]

theorem getPosting_nodup (idx : List Posting) (t : String)
    (hpost : ∀ e ∈ idx, e.ids.Nodup) : (getPosting idx t).Nodup := by
  induction idx with
  | nil => simp [getPosting]
  | cons e rest ih =>
    rw [getPosting]
    by_cases he : e.token = t
    · rw [if_pos he]
      exact hpost e (List.mem_cons_self e rest)
    · rw [if_neg he]
      exact ih (fun e' h' => hpost e' (List.mem_cons_of_mem e h'))

theorem getPosting_mem_entry (idx : List Posting) (t : String) (id : String)
    (h : id ∈ getPosting idx t) : ∃ e ∈ idx, id ∈ e.ids := by
  induction idx with
  | nil => simp [getPosting] at h
  | cons e rest ih =>
    rw [getPosting] at h
    by_cases he : e.token = t
    · rw [if_pos he] at h
      exact ⟨e, List.mem_cons_self e rest, h⟩
    · rw [if_neg he] at h
      obtain ⟨e', he', hid⟩ := ih h
      exact ⟨e', List.mem_cons_of_mem e he', hid⟩

/-- Claim C1: for every query, `searchVideos` returns exactly the items whose
id appears in at least one query token's posting list (hydration drops
nothing when every posted id has a backing video record, and items matched by
zero tokens never enter the score map); each entry's accumulated score is the
number of distinct query tokens whose posting list contains the id; the
result is sorted descending by score; ties keep the pre-sort order (the sort
is stable per score class); and the pre-sort order is exactly first-encounter
order — the deduplicated concatenation of the posting lists in query-token
order. -/
theorem C1_search_scoring (s : DBState) (q : String)
    (hpost : ∀ e ∈ s.invertedIndex, e.ids.Nodup)
    (hvid : ∀ e ∈ s.invertedIndex, ∀ id ∈ e.ids,
      (lookupVideo s.videos id).isSome = true) :
    ((searchVideos s q).map Video.id = (searchScores s q).map Prod.fst) ∧
    (∀ id : String, id ∈ (searchScores s q).map Prod.fst ↔
      ∃ t ∈ extractTokens q, id ∈ getPosting s.invertedIndex t) ∧
    (∀ p ∈ searchScores s q,
      p.2 = matchCount s.invertedIndex (extractTokens q) p.1) ∧
    ((searchScores s q).Pairwise (fun a b => b.2 ≤ a.2)) ∧
    (∀ n : Nat, (searchScores s q).filter (fun p => decide (p.2 = n)) =
      (accScores s.invertedIndex (extractTokens q)).filter
        (fun p => decide (p.2 = n))) ∧
    ((accScores s.invertedIndex (extractTokens q)).map Prod.fst =
      firstDedup (((extractTokens q).map (getPosting s.invertedIndex)).flatten)) := by
  have hndt : ∀ t ∈ extractTokens q, (getPosting s.invertedIndex t).Nodup :=
    fun t _ => getPosting_nodup s.invertedIndex t hpost
  have hkeys6 := keys_accScores s.invertedIndex (extractTokens q)
  have hknd : ((accScores s.invertedIndex (extractTokens q)).map Prod.fst).Nodup := by
    rw [hkeys6]
    exact firstDedup_nodup _
  have hperm : (searchScores s q).Perm (accScores s.invertedIndex (extractTokens q)) :=
    sSort_perm scoreGe _
  have c2 : ∀ id : String, id ∈ (searchScores s q).map Prod.fst ↔
      ∃ t ∈ extractTokens q, id ∈ getPosting s.invertedIndex t := by
    intro id
    rw [(hperm.map Prod.fst).mem_iff, ← scoreOf_isSome_iff_mem_keys,
      scoreOf_accScores s.invertedIndex (extractTokens q) id hndt]
    have hpos : (0 < matchCount s.invertedIndex (extractTokens q) id) ↔
        ∃ t ∈ extractTokens q, id ∈ getPosting s.invertedIndex t := by
      simp [matchCount, List.countP_pos_iff]
    rw [← hpos]
    by_cases h0 : matchCount s.invertedIndex (extractTokens q) id = 0 <;>
      simp [h0, Nat.pos_of_ne_zero]
  have c3 : ∀ p ∈ searchScores s q,
      p.2 = matchCount s.invertedIndex (extractTokens q) p.1 := by
    intro p hp
    have hp' : p ∈ accScores s.invertedIndex (extractTokens q) := hperm.subset hp
    have hsc := (pair_mem_iff_scoreOf _ hknd p.1 p.2).mp hp'
    rw [scoreOf_accScores s.invertedIndex (extractTokens q) p.1 hndt] at hsc
    by_cases h0 : matchCount s.invertedIndex (extractTokens q) p.1 = 0
    · rw [if_pos h0] at hsc
      cases hsc
    · rw [if_neg h0] at hsc
      exact (Option.some.inj hsc).symm
  have htrans : ∀ a b c : String × Nat,
      scoreGe a b = true → scoreGe b c = true → scoreGe a c = true := by
    intro a b c hab hbc
    simp only [scoreGe, decide_eq_true_eq] at *
    omega
  have htot : ∀ a b : String × Nat, scoreGe a b = false → scoreGe b a = true := by
    intro a b h
    simp only [scoreGe, decide_eq_false_iff_not, decide_eq_true_eq] at *
    omega
  have c4 : (searchScores s q).Pairwise (fun a b => b.2 ≤ a.2) := by
    have hpw := sSort_pairwise scoreGe htrans htot
      (accScores s.invertedIndex (extractTokens q))
    exact hpw.imp (fun hab => by
      simpa [scoreGe, decide_eq_true_eq] using hab)
  have hk : ∀ a b : String × Nat, a.2 = b.2 → scoreGe a b = true := by
    intro a b hab
    simp [scoreGe, hab]
  have c5 : ∀ n : Nat, (searchScores s q).filter (fun p => decide (p.2 = n)) =
      (accScores s.invertedIndex (extractTokens q)).filter
        (fun p => decide (p.2 = n)) :=
    fun n => sSort_filter_key scoreGe Prod.snd hk _ n
  have c1 : (searchVideos s q).map Video.id = (searchScores s q).map Prod.fst := by
    unfold searchVideos
    by_cases hq : extractTokens q = []
    · rw [if_pos hq]
      simp [searchScores, hq, accScores, sSort]
    · rw [if_neg hq]
      apply filterMap_lookup_map_id
      intro id hid
      obtain ⟨t, _, hmemt⟩ := (c2 id).mp hid
      obtain ⟨e, he, hide⟩ := getPosting_mem_entry s.invertedIndex t id hmemt
      exact hvid e he id hide
  exact ⟨c1, c2, c3, c4, c5, hkeys6⟩

/-- Claim C1, witness: a two-token query over a store in which one item
matches both tokens and the other matches one. -/
theorem C1_search_scoring_witness :
    (∀ e ∈ c1State.invertedIndex, e.ids.Nodup) ∧
    (∀ e ∈ c1State.invertedIndex, ∀ id ∈ e.ids,
      (lookupVideo c1State.videos id).isSome = true) ∧
    (((searchVideos c1State "ao do").map Video.id =
        (searchScores c1State "ao do").map Prod.fst) ∧
     (∀ id : String, id ∈ (searchScores c1State "ao do").map Prod.fst ↔
        ∃ t ∈ extractTokens "ao do", id ∈ getPosting c1State.invertedIndex t) ∧
     (∀ p ∈ searchScores c1State "ao do",
        p.2 = matchCount c1State.invertedIndex (extractTokens "ao do") p.1) ∧
     ((searchScores c1State "ao do").Pairwise (fun a b => b.2 ≤ a.2)) ∧
     (∀ n : Nat, (searchScores c1State "ao do").filter (fun p => decide (p.2 = n)) =
        (accScores c1State.invertedIndex (extractTokens "ao do")).filter
          (fun p => decide (p.2 = n))) ∧
     ((accScores c1State.invertedIndex (extractTokens "ao do")).map Prod.fst =
        firstDedup (((extractTokens "ao do").map
          (getPosting c1State.invertedIndex)).flatten))) :=
  ⟨by decide, by decide, C1_search_scoring c1State "ao do" (by decide) (by decide)⟩

theorem putThumb_append (l : List Thumb) (td : Thumb)
    (h : ∀ t ∈ l, t.key ≠ td.key) : putThumb l td = l ++ [td] := by
  induction l with
  | nil => rfl
  | cons u rest ih =>
    rw [putThumb, if_neg (h u (List.mem_cons_self u rest)),
      ih (fun t ht => h t (List.mem_cons_of_mem u ht))]
    rfl

theorem saveThumbnail_below_cap (s : DBState) (td : Thumb)
    (hvid : ∀ t ∈ s.thumbnails, t.videoId = td.videoId)
    (hlen : s.thumbnails.length < MAX_THUMBS_PER_VIDEO)
    (hkey : ∀ t ∈ s.thumbnails, t.key ≠ td.key) :
    (saveThumbnail s td).thumbnails = s.thumbnails ++ [td] := by
  have hfilter : s.thumbnails.filter (fun t => decide (t.videoId = td.videoId))
      = s.thumbnails :=
    List.filter_eq_self.mpr (fun t ht => by simp [hvid t ht])
  simp only [saveThumbnail, hfilter]
  rw [if_neg (Nat.not_le.mpr hlen)]
  exact putThumb_append s.thumbnails td hkey

theorem saveThumbnail_at_cap (s : DBState) (td h0 : Thumb) (rest : List Thumb)
    (hthumbs : s.thumbnails = h0 :: rest)
    (hvid : ∀ t ∈ s.thumbnails, t.videoId = td.videoId)
    (hsorted : s.thumbnails.Pairwise (fun a b => a.ts < b.ts))
    (hlen : s.thumbnails.length = MAX_THUMBS_PER_VIDEO)
    (hkey : ∀ t ∈ s.thumbnails, t.key ≠ td.key) :
    (saveThumbnail s td).thumbnails = rest ++ [td] := by
  have hfilter : s.thumbnails.filter (fun t => decide (t.videoId = td.videoId))
      = s.thumbnails :=
    List.filter_eq_self.mpr (fun t ht => by simp [hvid t ht])
  have hsorteq : sSort tsLe s.thumbnails = s.thumbnails :=
    sSort_eq_self tsLe s.thumbnails
      (hsorted.imp (fun hab => by simp [tsLe, Nat.le_of_lt hab]))
  simp only [saveThumbnail, hfilter]
  rw [if_pos (le_of_eq hlen.symm), hsorteq, hlen, Nat.sub_self, hthumbs]
  have htake : (h0 :: rest).take (0 + 1) = [h0] := by simp
  rw [htake, List.foldl_cons, List.foldl_nil,
    List.eraseP_cons_of_pos (by simp)]
  exact putThumb_append rest td
    (fun t ht => hkey t (hthumbs ▸ List.mem_cons_of_mem h0 ht))

/-- Inserting thumbnails for one item with strictly increasing timestamps and
fresh keys, starting from an empty thumbnail store, leaves exactly the last
`MAX_THUMBS_PER_VIDEO` inserted ones (in insertion order). -/
theorem runThumbs_increasing (vid : String) (s : DBState) (hs : s.thumbnails = [])
    (tds : List Thumb) :
    (∀ t ∈ tds, t.videoId = vid) → (tds.map Thumb.key).Nodup →
    tds.Pairwise (fun a b => a.ts < b.ts) →
    (runThumbs s tds).thumbnails = tds.drop (tds.length - MAX_THUMBS_PER_VIDEO) := by
  induction tds using List.reverseRecOn with
  | nil =>
    intro _ _ _
    simpa [runThumbs] using hs
  | append_singleton l a ih =>
    intro hvid hkeys hts
    have hMAX : MAX_THUMBS_PER_VIDEO = 500 := rfl
    have hrun : runThumbs s (l ++ [a]) = saveThumbnail (runThumbs s l) a := by
      simp [runThumbs, List.foldl_append]
    have hvl : ∀ t ∈ l, t.videoId = vid := fun t ht => hvid t (List.mem_append_left _ ht)
    have hkl : (l.map Thumb.key).Nodup := by
      rw [List.map_append] at hkeys
      exact hkeys.of_append_left
    have htl : l.Pairwise (fun a b => a.ts < b.ts) :=
      hts.sublist (List.sublist_append_left l [a])
    have hT := ih hvl hkl htl
    have hTsub : List.Sublist (runThumbs s l).thumbnails l := by
      rw [hT]
      exact List.drop_sublist _ l
    have hTvid : ∀ t ∈ (runThumbs s l).thumbnails, t.videoId = a.videoId := by
      intro t ht
      rw [hvl t (hTsub.subset ht), hvid a (List.mem_append_right l (by simp))]
    have hTkey : ∀ t ∈ (runThumbs s l).thumbnails, t.key ≠ a.key := by
      intro t ht heq
      rw [List.map_append] at hkeys
      exact (List.nodup_append.mp hkeys).2.2
        (List.mem_map_of_mem Thumb.key (hTsub.subset ht)) (by simp [heq])
    have hTsort : (runThumbs s l).thumbnails.Pairwise (fun a b => a.ts < b.ts) :=
      htl.sublist hTsub
    rw [hrun]
    by_cases hl : l.length < MAX_THUMBS_PER_VIDEO
    · have hT0 : (runThumbs s l).thumbnails = l := by
        rw [hT, Nat.sub_eq_zero_of_le (Nat.le_of_lt hl), List.drop_zero]
      have hstep := saveThumbnail_below_cap (runThumbs s l) a hTvid
        (by rw [hT0]; exact hl) hTkey
      rw [hstep, hT0]
      have hz : (l ++ [a]).length - MAX_THUMBS_PER_VIDEO = 0 := by
        rw [List.length_append]
        simp only [List.length_cons, List.length_nil]
        omega
      rw [hz, List.drop_zero]
    · push_neg at hl
      have hTlen : (runThumbs s l).thumbnails.length = MAX_THUMBS_PER_VIDEO := by
        rw [hT, List.length_drop]
        omega
      obtain ⟨h0, rest, hcons⟩ :
          ∃ h0 rest, (runThumbs s l).thumbnails = h0 :: rest := by
        cases hc : (runThumbs s l).thumbnails with
        | nil =>
          rw [hc] at hTlen
          exact absurd hTlen (by decide)
        | cons x xs => exact ⟨x, xs, rfl⟩
      have hstep := saveThumbnail_at_cap (runThumbs s l) a h0 rest hcons hTvid
        hTsort hTlen hTkey
      rw [hstep]
      have hrest : rest = l.drop (l.length - MAX_THUMBS_PER_VIDEO + 1) := by
        have hd : ((runThumbs s l).thumbnails).drop 1 = rest := by
          rw [hcons]
          rfl
        rw [hT, List.drop_drop] at hd
        rw [← hd]
      have harith : (l ++ [a]).length - MAX_THUMBS_PER_VIDEO =
          l.length - MAX_THUMBS_PER_VIDEO + 1 := by
        rw [List.length_append]
        simp only [List.length_cons, List.length_nil]
        omega
      rw [harith, List.drop_append_of_le_length (by omega), hrest]

/-- Claim C6 (amended): after sequentially inserting 501 thumbnails for one
item with distinct keys and STRICTLY INCREASING timestamps into an empty
thumbnail store, exactly 500 remain; they are all but the first (oldest)
inserted one, i.e. the 500 most recent by timestamp: every evicted thumbnail
is older than every surviving one. -/
theorem C6_thumbnail_cap (s : DBState) (vid : String) (tds : List Thumb)
    (hs : s.thumbnails = [])
    (hlen : tds.length = 501)
    (hvid : ∀ t ∈ tds, t.videoId = vid)
    (hkeys : (tds.map Thumb.key).Nodup)
    (hts : tds.Pairwise (fun a b => a.ts < b.ts)) :
    (runThumbs s tds).thumbnails.length = 500 ∧
    (runThumbs s tds).thumbnails = tds.drop 1 ∧
    (∀ u ∈ tds, u ∉ (runThumbs s tds).thumbnails →
      ∀ w ∈ (runThumbs s tds).thumbnails, u.ts < w.ts) := by
  have hrun := runThumbs_increasing vid s hs tds hvid hkeys hts
  have hsub : tds.length - MAX_THUMBS_PER_VIDEO = 1 := by
    rw [hlen]
    rfl
  rw [hsub] at hrun
  refine ⟨?_, hrun, ?_⟩
  · rw [hrun, List.length_drop, hlen]
  · intro u hu hnu w hw
    cases tds with
    | nil => cases hu
    | cons h0 rest =>
      have hdrop : (h0 :: rest).drop 1 = rest := rfl
      rw [hrun, hdrop] at hnu hw
      have hu0 : u = h0 := by
        rcases List.mem_cons.mp hu with h1 | h2
        · exact h1
        · exact absurd h2 hnu
      rw [List.pairwise_cons] at hts
      exact hu0 ▸ hts.1 w hw

theorem c6Thumb_key_inj (k t k' t' : Nat)
    (h : (c6Thumb k t).key = (c6Thumb k' t').key) : k = k' := by
  have hd : List.replicate k 'a' = List.replicate k' 'a' := congrArg String.data h
  have hl := congrArg List.length hd
  simpa using hl

theorem c6W_mem_first (t : Thumb) (n : Nat) (ht : t ∈ (List.range n).map c6W) :
    ∃ i, i < n ∧ t = c6W i := by
  rw [List.mem_map] at ht
  obtain ⟨i, hi, rfl⟩ := ht
  exact ⟨i, List.mem_range.mp hi, rfl⟩

theorem c6_first_hvid (n : Nat) : ∀ t ∈ (List.range n).map c6W, t.videoId = "v" := by
  intro t ht
  obtain ⟨i, _, rfl⟩ := c6W_mem_first t n ht
  rfl

theorem c6_first_keys_nodup (n : Nat) :
    (((List.range n).map c6W).map Thumb.key).Nodup := by
  rw [List.map_map]
  refine (List.nodup_range n).map ?_
  intro i j h
  have := c6Thumb_key_inj (i + 1) (i + 1) (j + 1) (j + 1) h
  omega

theorem c6_first_pairwise (n : Nat) :
    ((List.range n).map c6W).Pairwise (fun a b => a.ts < b.ts) := by
  rw [List.pairwise_map]
  exact (List.pairwise_lt_range n).imp (fun h => by simp only [c6W, c6Thumb]; omega)

/-- Claim C6, witness: 501 thumbnails for item "v" with fresh keys and
timestamps 1, 2, ..., 501 inserted in order. -/
theorem C6_thumbnail_cap_witness :
    emptyState.thumbnails = [] ∧
    c6WitnessList.length = 501 ∧
    (∀ t ∈ c6WitnessList, t.videoId = "v") ∧
    (c6WitnessList.map Thumb.key).Nodup ∧
    c6WitnessList.Pairwise (fun a b => a.ts < b.ts) ∧
    ((runThumbs emptyState c6WitnessList).thumbnails.length = 500 ∧
     (runThumbs emptyState c6WitnessList).thumbnails = c6WitnessList.drop 1 ∧
     (∀ u ∈ c6WitnessList, u ∉ (runThumbs emptyState c6WitnessList).thumbnails →
       ∀ w ∈ (runThumbs emptyState c6WitnessList).thumbnails, u.ts < w.ts)) := by
  have hlen : c6WitnessList.length = 501 := by simp [c6WitnessList]
  have hvid : ∀ t ∈ c6WitnessList, t.videoId = "v" := c6_first_hvid 501
  have hkeys : (c6WitnessList.map Thumb.key).Nodup := c6_first_keys_nodup 501
  have hts : c6WitnessList.Pairwise (fun a b => a.ts < b.ts) := c6_first_pairwise 501
  exact ⟨rfl, hlen, hvid, hkeys, hts,
    C6_thumbnail_cap emptyState "v" c6WitnessList rfl hlen hvid hkeys hts⟩

/-- Claim C6, counterexample: 501 thumbnails with distinct keys and distinct
timestamps where the LAST inserted one carries the SMALLEST timestamp.  After
all 501 inserts, 500 remain, but they are not the 500 most recent: the
surviving thumbnail with timestamp 0 is older than the evicted one with
timestamp 1.  The eviction happens before the new write, so the new oldest
record always survives. -/
theorem C6_counterexample :
    c6CtrList.length = 501 ∧
    (c6CtrList.map Thumb.key).Nodup ∧
    (c6CtrList.map Thumb.ts).Nodup ∧
    (runThumbs emptyState c6CtrList).thumbnails.length = 500 ∧
    c6Thumb 502 0 ∈ (runThumbs emptyState c6CtrList).thumbnails ∧
    c6W 0 ∈ c6CtrList ∧
    c6W 0 ∉ (runThumbs emptyState c6CtrList).thumbnails ∧
    (c6Thumb 502 0).ts < (c6W 0).ts := by
  have hMAX : MAX_THUMBS_PER_VIDEO = 500 := rfl
  have hrun1 : (runThumbs emptyState ((List.range 500).map c6W)).thumbnails =
      (List.range 500).map c6W := by
    have h := runThumbs_increasing "v" emptyState rfl ((List.range 500).map c6W)
      (c6_first_hvid 500) (c6_first_keys_nodup 500) (c6_first_pairwise 500)
    simpa [hMAX] using h
  have hsplit : runThumbs emptyState c6CtrList =
      saveThumbnail (runThumbs emptyState ((List.range 500).map c6W))
        (c6Thumb 502 0) := by
    simp [c6CtrList, runThumbs, List.foldl_append]
  have hcons : (List.range 500).map c6W =
      c6W 0 :: ((List.range 499).map (fun i => c6W (i + 1))) := by
    rw [show (500 : Nat) = 499 + 1 from rfl, List.range_succ_eq_map, List.map_cons,
      List.map_map]
    rfl
  have hthumbS : (runThumbs emptyState ((List.range 500).map c6W)).thumbnails =
      c6W 0 :: ((List.range 499).map (fun i => c6W (i + 1))) := by
    rw [hrun1, hcons]
  have hkeyfresh : ∀ t ∈ (runThumbs emptyState ((List.range 500).map c6W)).thumbnails,
      t.key ≠ (c6Thumb 502 0).key := by
    intro t ht heq
    rw [hrun1] at ht
    obtain ⟨i, hi, rfl⟩ := c6W_mem_first t 500 ht
    have := c6Thumb_key_inj (i + 1) (i + 1) 502 0 heq
    omega
  have hvidS : ∀ t ∈ (runThumbs emptyState ((List.range 500).map c6W)).thumbnails,
      t.videoId = (c6Thumb 502 0).videoId := by
    intro t ht
    rw [hrun1] at ht
    exact c6_first_hvid 500 t ht
  have hsortS : (runThumbs emptyState ((List.range 500).map c6W)).thumbnails.Pairwise
      (fun a b => a.ts < b.ts) := by
    rw [hrun1]
    exact c6_first_pairwise 500
  have hlenS : (runThumbs emptyState ((List.range 500).map c6W)).thumbnails.length =
      MAX_THUMBS_PER_VIDEO := by
    rw [hrun1, hMAX]
    simp
  have hstep := saveThumbnail_at_cap _ (c6Thumb 502 0) (c6W 0)
    ((List.range 499).map (fun i => c6W (i + 1))) hthumbS hvidS hsortS hlenS hkeyfresh
  have hfinal : (runThumbs emptyState c6CtrList).thumbnails =
      ((List.range 499).map (fun i => c6W (i + 1))) ++ [c6Thumb 502 0] := by
    rw [hsplit, hstep]
  refine ⟨?_, ?_, ?_, ?_, ?_, ?_, ?_, ?_⟩
  · simp [c6CtrList]
  · rw [c6CtrList, List.map_append, List.nodup_append]
    refine ⟨c6_first_keys_nodup 500, by simp, ?_⟩
    intro x hx hy
    rw [List.map_map] at hx
    obtain ⟨i, hi, hxe⟩ := List.mem_map.mp hx
    rw [List.map_singleton, List.mem_singleton] at hy
    rw [hy] at hxe
    have := c6Thumb_key_inj (i + 1) (i + 1) 502 0 hxe
    have hi' := List.mem_range.mp hi
    omega
  · rw [c6CtrList, List.map_append, List.nodup_append]
    refine ⟨?_, by simp, ?_⟩
    · rw [List.map_map]
      refine (List.nodup_range 500).map ?_
      intro i j h
      simp only [Function.comp, c6W, c6Thumb] at h
      omega
    · intro x hx hy
      rw [List.map_map] at hx
      obtain ⟨i, hi, hxe⟩ := List.mem_map.mp hx
      rw [List.map_singleton, List.mem_singleton] at hy
      rw [hy] at hxe
      simp only [Function.comp, c6W, c6Thumb] at hxe
      omega
  · rw [hfinal]
    simp
  · rw [hfinal]
    exact List.mem_append_right _ (by simp)
  · rw [c6CtrList]
    exact List.mem_append_left _
      (List.mem_map_of_mem c6W (List.mem_range.mpr (by omega)))
  · rw [hfinal]
    intro hmem
    rcases List.mem_append.mp hmem with h1 | h2
    · obtain ⟨i, _, he⟩ := List.mem_map.mp h1
      have hts := congrArg Thumb.ts he
      simp only [c6W, c6Thumb] at hts
      omega
    · have he := List.mem_singleton.mp h2
      have hts := congrArg Thumb.ts he
      simp only [c6W, c6Thumb] at hts
      omega
  · simp [c6W, c6Thumb]

/-- Claim C7 (amended): two query strings on which the tokenizer produces the
same token sequence are indistinguishable to `searchVideos`, because the
query reaches the engine only through `extractTokens`. -/
theorem C7_tokenizer_determines_search (s : DBState) (q1 q2 : String)
    (h : extractTokens q1 = extractTokens q2) :
    searchVideos s q1 = searchVideos s q2 := by
  unfold searchVideos searchScores
  rw [h]

/-- Claim C7, witness: the diacritic pair from the claim — "ao mau" and
"áo màu" tokenize identically, so their search results coincide. -/
theorem C7_tokenizer_determines_search_witness :
    extractTokens "ao mau" = extractTokens "áo màu" ∧
    searchVideos c1State "ao mau" = searchVideos c1State "áo màu" :=
  ⟨by decide, C7_tokenizer_determines_search c1State "ao mau" "áo màu" (by decide)⟩

/-- Claim C7, counterexample: two queries whose token SETS coincide but whose
token sequences differ ("ab cd" versus "cd ab") produce different result
sequences over a store where both single-token matches tie at score 1: the
stable sort keeps first-encounter order, which depends on the query's token
order. -/
theorem C7_counterexample :
    (∀ t ∈ extractTokens "ab cd", t ∈ extractTokens "cd ab") ∧
    (∀ t ∈ extractTokens "cd ab", t ∈ extractTokens "ab cd") ∧
    searchVideos c7State "ab cd" ≠ searchVideos c7State "cd ab" := by decide

end TTWI
